import Mathlib

/-!
Verification of the nfldfs player-loading and lineup-building pipeline
(`trial.py`) against its natural-language specification.

Numeric cell values are modelled as rationals; a CSV cell that is missing
or fails numeric coercion is modelled as `none`.  Machinery that the code
delegates to external libraries (the pandas dataframe, the pydfs lineup
optimizer) is modelled as explicit lists and an oracle function supplying
the optimizer's output for a given request.
-/

namespace Nfldfs

/-- Banker's rounding (round half to even) of a rational to an integer,
matching Python's `round`. -/
def roundHalfEven (q : ℚ) : ℤ :=
  let f := ⌊q⌋
  if q - f < 1/2 then f
  else if (1:ℚ)/2 < q - f then f + 1
  else if f % 2 = 0 then f else f + 1

/-- Python `round(x, 2)`: round to two decimal places. -/
def round2 (q : ℚ) : ℚ := (roundHalfEven (q * 100) : ℚ) / 100

/-- The `safe_float` utility: a missing or non-numeric value (modelled
as `none`) becomes the default `0.0`. -/
def safe_float (v : Option ℚ) : ℚ := v.getD 0

/-- The four fields of a row read by `compute_adjusted_proj`; `none`
models a missing key or a value that `float` rejects. -/
structure ProjInput where
  finalProjection : Option ℚ
  dvp : Option ℚ
  l5avg : Option ℚ
  szavg : Option ℚ
deriving DecidableEq, Repr

/-- The `compute_adjusted_proj` heuristic from `trial.py`: sequentially adjusts the
final projection by the DVP and recent-form bonuses, scales by 0.75 and
rounds to two decimals. -/
def compute_adjusted_proj (row : ProjInput) : ℚ :=
  let proj := safe_float row.finalProjection
  let dvp := safe_float row.dvp
  let l5 := safe_float row.l5avg
  let szn := safe_float row.szavg
  let adj := proj
  let adj := if dvp < 5 then adj - 1.5 else adj
  let adj := if |l5 - szn| ≤ 5 ∧ l5 > 14 then adj + 1.5 else adj
  let adj := adj * 0.75
  round2 adj

/-! Python strings are sequences of code points; the Python string
operations the code uses (`strip`, `split`, `upper`, slicing, `in`,
single-character `replace`) are modelled over `List Char`. -/

/-- Python `str.strip()`: drop whitespace from both ends. -/
def pyStrip (cs : List Char) : List Char :=
  ((cs.dropWhile Char.isWhitespace).reverse.dropWhile Char.isWhitespace).reverse

/-- Python `str.split(sep)` for a one-character separator. -/
def pySplit (sep : Char) : List Char → List (List Char)
  | [] => [[]]
  | c :: rest =>
    if c = sep then [] :: pySplit sep rest
    else
      match pySplit sep rest with
      | [] => [[c]]
      | g :: gs => (c :: g) :: gs

/-- Python `str.upper()` (ASCII). -/
def pyUpper (cs : List Char) : List Char := cs.map Char.toUpper

/-- Numeric value of a list of decimal digit characters. -/
def charsToNat (cs : List Char) : Nat :=
  cs.foldl (fun a c => 10 * a + (c.toNat - 48)) 0

/-- A nonempty all-digit character list, read as a natural number. -/
def digitsToNat? (cs : List Char) : Option Nat :=
  if cs ≠ [] ∧ cs.all Char.isDigit then some (charsToNat cs) else none

/-- Model of Python `int(s)` on a string: surrounding whitespace is
ignored, an optional sign precedes decimal digits; `none` models
`ValueError`. -/
def pyInt? (cs : List Char) : Option ℤ :=
  match pyStrip cs with
  | '+' :: t => (digitsToNat? t).map fun n => (n : ℤ)
  | '-' :: t => (digitsToNat? t).map fun n => -(n : ℤ)
  | t => (digitsToNat? t).map fun n => (n : ℤ)

/-- Exact value of a parsed decimal `±ds.fs e±k`, kept as one `mkRat` of
integers so that concrete instances compute. -/
def floatVal (neg : Bool) (ds fs : List Char) (e : ℤ) : ℚ :=
  let n : ℤ := (if neg then -1 else 1) * (charsToNat (ds ++ fs) : ℤ)
  match e with
  | Int.ofNat k => mkRat (n * 10 ^ k) (10 ^ fs.length)
  | Int.negSucc k => mkRat n (10 ^ fs.length * 10 ^ (k + 1))

/-- Parse the digit groups of a decimal mantissa `digits[.digits]` off the
front of `cs`; at least one digit must be present. -/
def mantissaParts? (cs : List Char) : Option ((List Char × List Char) × List Char) :=
  let p1 := cs.span Char.isDigit
  match p1.2 with
  | '.' :: r2 =>
    let p2 := r2.span Char.isDigit
    if p1.1.isEmpty && p2.1.isEmpty then none else some ((p1.1, p2.1), p2.2)
  | _ => if p1.1.isEmpty then none else some ((p1.1, []), p1.2)

/-- Parse an exponent suffix (just past the `e`/`E`): optional sign and at
least one digit, consuming the whole rest. -/
def exponent? (cs : List Char) : Option ℤ :=
  match cs with
  | '+' :: t => (digitsToNat? t).map fun n => (n : ℤ)
  | '-' :: t => (digitsToNat? t).map fun n => -(n : ℤ)
  | t => (digitsToNat? t).map fun n => (n : ℤ)

/-- Model of Python `float(s)`: surrounding whitespace, optional sign,
decimal mantissa with optional fraction, optional exponent; `none` models
`ValueError`. -/
def pyFloat? (s : String) : Option ℚ :=
  let cs := pyStrip s.data
  let sr : Bool × List Char :=
    match cs with
    | '+' :: t => (false, t)
    | '-' :: t => (true, t)
    | t => (false, t)
  match mantissaParts? sr.2 with
  | none => none
  | some mp =>
    match mp.2 with
    | [] => some (floatVal sr.1 mp.1.1 mp.1.2 0)
    | 'e' :: r => (exponent? r).map fun e => floatVal sr.1 mp.1.1 mp.1.2 e
    | 'E' :: r => (exponent? r).map fun e => floatVal sr.1 mp.1.1 mp.1.2 e
    | _ => none

/-- Model of Python `int(f)` on a finite float: truncation toward zero. -/
def ratTrunc (q : ℚ) : ℤ := if 0 ≤ q then ⌊q⌋ else ⌈q⌉

/-- The cleanup in `parse_salary`:
`str(x).replace("$", "").replace(",", "").replace("k", "")`. -/
def cleanSalary (s : String) : String :=
  ⟨s.data.filter fun c => decide (c ≠ '$' ∧ c ≠ ',' ∧ c ≠ 'k')⟩

/-- The `parse_salary` helper from `load_players` in `trial.py`: clean the string,
parse it as a float, scale by 1000 when the value is below 100, truncate
to an integer; any failure yields 0. -/
def parse_salary (x : String) : ℤ :=
  match pyFloat? (cleanSalary x) with
  | none => 0
  | some f => if f < 100 then ratTrunc (f * 1000) else ratTrunc f

/-- The `parse_hour_minute` helper from `filter_by_game_time` in `trial.py`: minutes
since midnight of a `"H:MMam/pm"` string, `none` when parsing fails. -/
def parse_hour_minute (s : String) : Option ℤ :=
  if ¬ s.data.contains ':' then none
  else
    let st := pyStrip s.data
    match pySplit ':' st with
    | p0 :: p1 :: _ =>
      match pyInt? p0, pyInt? (p1.take 2) with
      | some hour, some minute =>
        let ampm := pyUpper (st.drop (st.length - 2))
        let hour :=
          if ampm = ['P', 'M'] ∧ hour ≠ 12 then hour + 12
          else if ampm = ['A', 'M'] ∧ hour = 12 then 0
          else hour
        some (hour * 60 + minute)
      | _, _ => none
    | _ => none

/-- One row of the working table produced by `load_players`; `idx` is the
pandas row index (the row's position in the source CSV), which filtering
preserves. -/
structure LoadedRow where
  idx : Nat
  name : String
  team : String
  pos : String
  gameTime : String
  salary : ℤ
  finalProjection : ℚ
  adjProjection : ℚ
  uniqueId : String
deriving DecidableEq, Repr

/-- The game-time filter `filter_by_game_time` from `trial.py`.  A pandas comparison against
the derived `GAME_MIN` column is false on a missing (unparseable) value,
and `dropna` keeps exactly the rows whose game time parsed. -/
def filter_by_game_time (df : List LoadedRow) (time_filter : String) : List LoadedRow :=
  if time_filter = "all" then
    df.filter fun r => (parse_hour_minute r.gameTime).isSome
  else if time_filter = "1pm" then
    df.filter fun r =>
      match parse_hour_minute r.gameTime with
      | some m => decide (12 * 60 + 30 ≤ m ∧ m ≤ 13 * 60 + 30)
      | none => false
  else if time_filter = "late" then
    df.filter fun r =>
      match parse_hour_minute r.gameTime with
      | some m => decide (16 * 60 ≤ m)
      | none => false
  else
    df.filter fun r => (parse_hour_minute r.gameTime).isSome

/-- The ten decimal digit characters. -/
def digitCh : Nat → Char
  | 0 => '0' | 1 => '1' | 2 => '2' | 3 => '3' | 4 => '4'
  | 5 => '5' | 6 => '6' | 7 => '7' | 8 => '8' | _ => '9'

/-- Little-endian base-10 digits of the second argument; the first
argument is fuel making the recursion structural, always sufficient when
it is at least the number. -/
def digitsLE : Nat → Nat → List Nat
  | _, 0 => []
  | 0, _ + 1 => []
  | fuel + 1, n + 1 => (n + 1) % 10 :: digitsLE fuel ((n + 1) / 10)

/-- Decimal representation of a natural number, as Python `str` writes
it. -/
def natStr (n : Nat) : String :=
  if n = 0 then "0" else ⟨((digitsLE n n).map digitCh).reverse⟩

/-- One raw CSV row after header normalization.  Cells that feed numeric
coercions are `none` when missing or non-numeric; `salary` is the raw
cell text (the `str(x)` of `parse_salary`). -/
structure RawRow where
  name : String
  team : String
  pos : String
  gameTime : String
  salary : String
  finalProjection : Option ℚ
  dvp : Option ℚ
  l5avg : Option ℚ
  szavg : Option ℚ
deriving DecidableEq, Repr

/-- The per-row work of `load_players`: parse the salary, coerce
`FINAL PROJECTION` (`pd.to_numeric(..., errors="coerce").fillna(0)`),
compute the adjusted projection, normalize `POS`, and derive `unique_id`
from the name and the pandas row index. -/
def loadRow (i : Nat) (r : RawRow) : LoadedRow :=
  { idx := i
    name := r.name
    team := r.team
    pos := ⟨pyUpper (pyStrip r.pos.data)⟩
    gameTime := r.gameTime
    salary := parse_salary r.salary
    finalProjection := r.finalProjection.getD 0
    adjProjection := compute_adjusted_proj
      ⟨some (r.finalProjection.getD 0), r.dvp, r.l5avg, r.szavg⟩
    uniqueId := r.name ++ "_" ++ natStr i }

/-- The loader `load_players` from `trial.py` on the decoded CSV rows: rows with
non-positive parsed salary, then rows with non-positive coerced final
projection, are dropped; the pandas index survives filtering. -/
def load_players (raws : List RawRow) : List LoadedRow :=
  ((raws.enum.map fun p => loadRow p.1 p.2).filter
      fun r => decide (0 < r.salary)).filter
    fun r => decide (0 < r.finalProjection)

/-- An optimizer-facing player record, as built for the external
optimizer's `Player` class. -/
structure OptPlayer where
  id : String
  firstName : String
  lastName : String
  positions : List String
  team : String
  salary : ℤ
  fppg : ℚ
deriving DecidableEq, Repr

/-- The positions-stack constraint handed to `optimizer.add_stack`. -/
structure StackRequest where
  groups : List (List String)
  forPositions : List String
  team : String
deriving DecidableEq, Repr

/-- Everything `build_lineups` communicates to the external optimizer
before asking it to generate lineups. -/
structure OptimizerConfig where
  players : List OptPlayer
  stack : Option StackRequest
  minTeams : Nat
  maxTeams : Nat
  locked : List OptPlayer
deriving DecidableEq, Repr

/-- What one call of `optimizer.optimize(n)` produces: the lineups the
generator yields (each one its `players` list), and an error when it
raises after (or instead of) them. -/
structure GenResult where
  yielded : List (List OptPlayer)
  error : Option String

/-- The external optimizer library, as an oracle from the assembled
configuration and the requested number of lineups to what its generator
does. -/
def Oracle := OptimizerConfig → Nat → GenResult

/-- The fixed roster-slot template of `build_lineups`. -/
def DK_NFL_SLOTS : List String :=
  ["QB", "RB", "RB", "WR", "WR", "WR", "TE", "FLEX", "DST"]

/-- The per-row conversion in `build_lineups`: split the positions and
keep the row only when it has a positive salary, a positive adjusted
projection and a nonempty position set. -/
def mkOptPlayer (r : LoadedRow) : Option OptPlayer :=
  let positions := (pySplit '/' r.pos.data).map fun p => String.mk (pyUpper (pyStrip p))
  let salary := r.salary
  let fppg := r.adjProjection
  if salary ≤ 0 ∨ fppg ≤ 0 ∨ positions = [] ∨ positions = [""] then none
  else some
    { id := r.uniqueId, firstName := r.name, lastName := "",
      positions := positions, team := r.team, salary := salary, fppg := fppg }

/-- The stack constraint requested for `stack_team`: a QB plus two
pass-catcher (RB/WR/TE) groups from one team. -/
def stackFor (team : String) : StackRequest :=
  { groups := [["QB"], ["RB", "WR", "TE"], ["RB", "WR", "TE"]]
    forPositions := ["QB", "RB", "WR", "TE"]
    team := team }

/-- The optimizer configuration `build_lineups` assembles before
generating: exclusion filter, player records, optional team stack
(absent when `optimizer.add_stack` raised, modelled by `stackOk =
false`), team-count bounds, and locked players. -/
def buildConfig (df : List LoadedRow) (locked_ids excluded_ids : List String)
    (stack_team : String) (stackOk : Bool) : OptimizerConfig :=
  let df := df.filter fun r => decide (r.uniqueId ∉ excluded_ids)
  let players := df.filterMap mkOptPlayer
  { players := players
    stack := if stack_team ≠ "" ∧ stackOk then some (stackFor stack_team) else none
    minTeams := 4
    maxTeams := 6
    locked := locked_ids.filterMap fun pid => players.find? fun pl => pl.id == pid }

/-- Deduplication key used by `build_lineups`:
`tuple(sorted([p.id for p in lineup.players]))`. -/
def sortedIds (lineup : List OptPlayer) : List String :=
  List.insertionSort (· ≤ ·) (lineup.map fun p => p.id)

/-- Pair the nine roster slots with a lineup's players, as
`zip(DK_NFL_SLOTS, lineup.players)` does. -/
def attachSlots (lineup : List OptPlayer) : List (String × OptPlayer) :=
  DK_NFL_SLOTS.zip lineup

/-- The generation loop of `build_lineups`: walk the optimizer's yielded
lineups, skip any whose sorted id tuple was already seen, pair the rest
with roster slots, and stop once `count` lineups are collected. -/
def dedupTake (count : Nat) (seen : List (List String)) :
    List (List OptPlayer) → List (List (String × OptPlayer))
  | [] => []
  | c :: rest =>
    if sortedIds c ∈ seen then dedupTake count seen rest
    else if count ≤ 1 then [attachSlots c]
    else attachSlots c :: dedupTake (count - 1) (sortedIds c :: seen) rest

/-- First-occurrence deduplication by sorted id tuple, without the count
cutoff. -/
def dedupAll (seen : List (List String)) : List (List OptPlayer) → List (List OptPlayer)
  | [] => []
  | c :: rest =>
    if sortedIds c ∈ seen then dedupAll seen rest
    else c :: dedupAll (sortedIds c :: seen) rest

/-- The lineup builder `build_lineups` from `trial.py`: assemble the
optimizer configuration, request `count * 3` candidate lineups, and
deduplicate.  An error the generator raises is caught and logged, so
only the yielded prefix contributes. -/
def build_lineups (optimize : Oracle) (df : List LoadedRow) (num_lineups : Nat)
    (locked_ids excluded_ids : List String) (stack_team : String) (stackOk : Bool) :
    List (List (String × OptPlayer)) :=
  let cfg := buildConfig df locked_ids excluded_ids stack_team stackOk
  dedupTake num_lineups [] (optimize cfg (num_lineups * 3)).yielded

/-- C1: `compute_adjusted_proj` is a pure total function computing
`round(((proj - (1.5 if dvp < 5 else 0)) + (1.5 if |l5-szn| <= 5 and
l5 > 14 else 0)) * 0.75, 2)` with missing/non-numeric fields coerced to
`0.0`; in particular `final_projection=20, dvp=3, l5=16, season=15`
yields `15.0`. -/
theorem compute_adjusted_proj_spec :
    (∀ row : ProjInput,
      compute_adjusted_proj row =
        round2 (((safe_float row.finalProjection
            - (if safe_float row.dvp < 5 then 1.5 else 0))
          + (if |safe_float row.l5avg - safe_float row.szavg| ≤ 5
                ∧ safe_float row.l5avg > 14 then 1.5 else 0)) * 0.75))
    ∧ compute_adjusted_proj ⟨some 20, some 3, some 16, some 15⟩ = 15 := by
  constructor
  · intro row
    simp only [compute_adjusted_proj]
    split_ifs <;> congr 1 <;> ring
  · norm_num [compute_adjusted_proj, safe_float, round2, roundHalfEven]

/-- C2: the salary parser accepts a leading dollar sign, comma thousands
separators and a trailing `k` meaning thousands: `"$5,000"`, `"5000"`,
`"5k"`, `"5.5k"` parse to 5000, 5000, 5000, 5500; an unparseable value
parses to 0, and rows with non-positive salary are excluded from the
working table `load_players` returns. -/
theorem parse_salary_spec :
    parse_salary "$5,000" = 5000 ∧ parse_salary "5000" = 5000
    ∧ parse_salary "5k" = 5000 ∧ parse_salary "5.5k" = 5500
    ∧ (∀ s, pyFloat? (cleanSalary s) = none → parse_salary s = 0)
    ∧ ∀ raws, ∀ r ∈ load_players raws, 0 < r.salary := by
  refine ⟨?_, ?_, ?_, ?_, ?_, ?_⟩
  · have h : pyFloat? (cleanSalary "$5,000") = some 5000 := by decide
    simp only [parse_salary, h]
    norm_num [ratTrunc]
  · decide
  · have h : pyFloat? (cleanSalary "5k") = some 5 := by decide
    simp only [parse_salary, h]
    norm_num [ratTrunc]
  · have h : pyFloat? (cleanSalary "5.5k") = some (mkRat 55 10) := by decide
    simp only [parse_salary, h]
    norm_num [ratTrunc, Rat.mkRat_eq_div]
  · intro s h
    simp [parse_salary, h]
  · intro raws r hr
    have h1 := (List.mem_filter.mp hr).1
    simpa using (List.mem_filter.mp h1).2

/-- C10: the salary parser multiplies any parsed value strictly below 100
by 1000 whether or not a `k` suffix was present — `"50"` yields 50000,
`"99.5"` yields 99500, `"100"` yields 100 — so the thousands scaling is
decided by magnitude, not by the suffix. -/
theorem parse_salary_magnitude :
    parse_salary "50" = 50000 ∧ parse_salary "99.5" = 99500
    ∧ parse_salary "100" = 100
    ∧ ∀ s q, pyFloat? (cleanSalary s) = some q →
        parse_salary s = if q < 100 then ratTrunc (q * 1000) else ratTrunc q := by
  refine ⟨?_, ?_, ?_, ?_⟩
  · have h : pyFloat? (cleanSalary "50") = some 50 := by decide
    simp only [parse_salary, h]
    norm_num [ratTrunc]
  · have h : pyFloat? (cleanSalary "99.5") = some (mkRat 995 10) := by decide
    simp only [parse_salary, h]
    norm_num [ratTrunc, Rat.mkRat_eq_div]
  · decide
  · intro s q h
    simp [parse_salary, h]

/-- C3: the game-time filter maps each row's time string to minutes since
midnight; filter `"1pm"` keeps exactly the rows with minutes in
`[750, 810]`, `"late"` exactly those with minutes at least 960, and
`"all"` or any unrecognized name exactly the rows whose time parses;
`"1:05pm"` maps to 785 minutes, `"4:00pm"` to 960, `"11:59am"` to 719. -/
theorem filter_by_game_time_spec :
    (∀ df r, r ∈ filter_by_game_time df "1pm" ↔
      r ∈ df ∧ ∃ m, parse_hour_minute r.gameTime = some m ∧ 750 ≤ m ∧ m ≤ 810)
    ∧ (∀ df r, r ∈ filter_by_game_time df "late" ↔
      r ∈ df ∧ ∃ m, parse_hour_minute r.gameTime = some m ∧ 960 ≤ m)
    ∧ (∀ df r tf, tf = "all" ∨ (tf ≠ "1pm" ∧ tf ≠ "late") →
      (r ∈ filter_by_game_time df tf ↔
        r ∈ df ∧ ∃ m, parse_hour_minute r.gameTime = some m))
    ∧ parse_hour_minute "1:05pm" = some 785
    ∧ parse_hour_minute "4:00pm" = some 960
    ∧ parse_hour_minute "11:59am" = some 719 := by
  refine ⟨?_, ?_, ?_, by decide, by decide, by decide⟩
  · intro df r
    rw [show filter_by_game_time df "1pm" = df.filter fun r =>
        match parse_hour_minute r.gameTime with
        | some m => decide (12 * 60 + 30 ≤ m ∧ m ≤ 13 * 60 + 30)
        | none => false from rfl, List.mem_filter]
    cases h : parse_hour_minute r.gameTime with
    | none => simp [h]
    | some m => simp [h]
  · intro df r
    rw [show filter_by_game_time df "late" = df.filter fun r =>
        match parse_hour_minute r.gameTime with
        | some m => decide (16 * 60 ≤ m)
        | none => false from rfl, List.mem_filter]
    cases h : parse_hour_minute r.gameTime with
    | none => simp [h]
    | some m => simp [h]
  · intro df r tf htf
    have hdef : filter_by_game_time df tf
        = df.filter fun r => (parse_hour_minute r.gameTime).isSome := by
      rcases htf with h | ⟨h1, h2⟩
      · subst h; rfl
      · simp [filter_by_game_time, h1, h2]
    rw [hdef, List.mem_filter]
    cases h : parse_hour_minute r.gameTime with
    | none => simp [h]
    | some m => simp [h]

theorem digitsLE_ofDigits : ∀ fuel n, n ≤ fuel → Nat.ofDigits 10 (digitsLE fuel n) = n := by
  intro fuel
  induction fuel with
  | zero =>
    intro n hn
    interval_cases n
    simp [digitsLE]
  | succ fuel ih =>
    intro n hn
    match n with
    | 0 => simp [digitsLE]
    | m + 1 =>
      have hlt : (m + 1) / 10 < m + 1 := Nat.div_lt_self (by omega) (by omega)
      have hdiv : (m + 1) / 10 ≤ fuel := by omega
      simp only [digitsLE, Nat.ofDigits_cons, ih _ hdiv]
      omega

theorem digitsLE_lt : ∀ fuel n, ∀ d ∈ digitsLE fuel n, d < 10 := by
  intro fuel
  induction fuel with
  | zero =>
    intro n d hd
    match n with
    | 0 => simp [digitsLE] at hd
    | m + 1 => simp [digitsLE] at hd
  | succ fuel ih =>
    intro n d hd
    match n with
    | 0 => simp [digitsLE] at hd
    | m + 1 =>
      simp only [digitsLE, List.mem_cons] at hd
      rcases hd with h | h
      · subst h
        exact Nat.mod_lt _ (by omega)
      · exact ih _ _ h

theorem digitCh_isDigitChar (d : Nat) : digitCh d ≠ '_' := by
  unfold digitCh
  split <;> decide

theorem digitCh_inj (a b : Nat) (ha : a < 10) (hb : b < 10)
    (h : digitCh a = digitCh b) : a = b := by
  interval_cases a <;> interval_cases b <;> revert h <;> decide

theorem map_digitCh_inj :
    ∀ xs ys : List Nat, (∀ d ∈ xs, d < 10) → (∀ d ∈ ys, d < 10) →
      xs.map digitCh = ys.map digitCh → xs = ys := by
  intro xs
  induction xs with
  | nil =>
    intro ys _ _ h
    cases ys with
    | nil => rfl
    | cons y ys => simp at h
  | cons x xs ih =>
    intro ys hxs hys h
    cases ys with
    | nil => simp at h
    | cons y ys =>
      simp only [List.map_cons, List.cons.injEq] at h
      have hx := digitCh_inj x y (hxs x (by simp)) (hys y (by simp)) h.1
      have ht := ih ys (fun d hd => hxs d (by simp [hd])) (fun d hd => hys d (by simp [hd])) h.2
      rw [hx, ht]

theorem digits_eq_zero_list (n : Nat) (h : (digitsLE n n).map digitCh = ['0']) :
    n = 0 := by
  have hz : List.map digitCh [0] = ['0'] := by decide
  have heq : digitsLE n n = [0] :=
    map_digitCh_inj _ [0] (digitsLE_lt n n) (by intro d hd; simp at hd; omega)
      (by rw [h, hz])
  have hval := digitsLE_ofDigits n n le_rfl
  rw [heq, Nat.ofDigits_cons, Nat.ofDigits_nil] at hval
  omega

theorem natStr_inj (a b : Nat) (h : natStr a = natStr b) : a = b := by
  have hdata := congrArg String.data h
  by_cases ha : a = 0 <;> by_cases hb : b = 0 <;>
    simp only [natStr, ha, hb, if_true, if_false, reduceIte] at hdata ⊢
  · have h1 : (digitsLE b b).map digitCh = ['0'] := by
      have := congrArg List.reverse hdata
      simpa using this.symm
    exact (digits_eq_zero_list b h1).symm
  · have h1 : (digitsLE a a).map digitCh = ['0'] := by
      have := congrArg List.reverse hdata
      simpa using this
    exact ha (digits_eq_zero_list a h1)
  · have hrev := congrArg List.reverse hdata
    simp only [List.reverse_reverse] at hrev
    have heq : digitsLE a a = digitsLE b b :=
      map_digitCh_inj _ _ (digitsLE_lt a a) (digitsLE_lt b b) hrev
    have h1 := digitsLE_ofDigits a a le_rfl
    have h2 := digitsLE_ofDigits b b le_rfl
    rw [heq, h2] at h1
    omega

theorem natStr_no_underscore (n : Nat) : '_' ∉ (natStr n).data := by
  by_cases hn : n = 0 <;> simp only [natStr, hn, if_true, if_false, reduceIte]
  · decide
  · intro hmem
    have : '_' ∈ (digitsLE n n).map digitCh := by
      simpa using hmem
    rcases List.mem_map.mp this with ⟨d, _, hd⟩
    exact digitCh_isDigitChar d hd

theorem append_sep_inj (c : Char) :
    ∀ (l1 r1 l2 r2 : List Char), c ∉ r1 → c ∉ r2 →
      l1 ++ c :: r1 = l2 ++ c :: r2 → r1 = r2 := by
  intro l1
  induction l1 with
  | nil =>
    intro r1 l2 r2 h1 h2 h
    cases l2 with
    | nil => simpa using h
    | cons y l2 =>
      exfalso
      simp only [List.nil_append, List.cons_append, List.cons.injEq] at h
      exact h1 (h.2 ▸ List.mem_append_right l2 (List.mem_cons_self c r2))
  | cons x l1 ih =>
    intro r1 l2 r2 h1 h2 h
    cases l2 with
    | nil =>
      exfalso
      simp only [List.cons_append, List.nil_append, List.cons.injEq] at h
      exact h2 (h.2.symm ▸ List.mem_append_right l1 (List.mem_cons_self c r1))
    | cons y l2 =>
      simp only [List.cons_append, List.cons.injEq] at h
      exact ih r1 l2 r2 h1 h2 h.2

theorem uid_inj (n1 n2 : String) (i1 i2 : Nat)
    (h : n1 ++ "_" ++ natStr i1 = n2 ++ "_" ++ natStr i2) : i1 = i2 := by
  have hdata := congrArg String.data h
  simp only [String.data_append] at hdata
  have h1 : n1.data ++ '_' :: (natStr i1).data = n2.data ++ '_' :: (natStr i2).data := by
    simpa [List.append_assoc] using hdata
  have := append_sep_inj '_' n1.data (natStr i1).data n2.data (natStr i2).data
    (natStr_no_underscore i1) (natStr_no_underscore i2) h1
  exact natStr_inj i1 i2 (String.ext this)

theorem mem_load_players (raws : List RawRow) (r : LoadedRow)
    (hr : r ∈ load_players raws) :
    r.uniqueId = r.name ++ "_" ++ natStr r.idx := by
  have h1 := (List.mem_filter.mp hr).1
  have h2 := (List.mem_filter.mp h1).1
  rcases List.mem_map.mp h2 with ⟨p, _, rfl⟩
  rfl

/-- C6: every row of the table `load_players` returns has positive salary
and positive final projection. -/
theorem load_players_invariant (raws : List RawRow) (r : LoadedRow)
    (hr : r ∈ load_players raws) : 0 < r.salary ∧ 0 < r.finalProjection := by
  refine ⟨?_, ?_⟩
  · have h1 := (List.mem_filter.mp hr).1
    simpa using (List.mem_filter.mp h1).2
  · simpa using (List.mem_filter.mp hr).2

theorem load_players_invariant_witness :
    0 < (loadRow 0 ⟨"A", "T", "QB", "1:05pm", "5000", some 20, some 10, none, none⟩).salary
    ∧ 0 < (loadRow 0 ⟨"A", "T", "QB", "1:05pm", "5000", some 20, some 10, none, none⟩).finalProjection :=
  load_players_invariant
    [⟨"A", "T", "QB", "1:05pm", "5000", some 20, some 10, none, none⟩]
    (loadRow 0 ⟨"A", "T", "QB", "1:05pm", "5000", some 20, some 10, none, none⟩)
    (List.mem_singleton.mpr rfl)

/-- C7: whenever the loaded table's row indices are pairwise distinct,
the unique ids derived from name plus row index are pairwise distinct,
even when two players share a name. -/
theorem load_players_unique_ids (raws : List RawRow)
    (hidx : ((load_players raws).map LoadedRow.idx).Pairwise (· ≠ ·)) :
    ((load_players raws).map LoadedRow.uniqueId).Pairwise (· ≠ ·) := by
  rw [List.pairwise_map] at hidx ⊢
  refine hidx.imp_of_mem ?_
  intro a b ha hb hne heq
  apply hne
  have hua := mem_load_players raws a ha
  have hub := mem_load_players raws b hb
  rw [hua, hub] at heq
  exact uid_inj a.name b.name a.idx b.idx heq

theorem load_players_unique_ids_witness :
    ((load_players
        [⟨"A", "T", "QB", "1:05pm", "5000", some 20, some 10, none, none⟩,
         ⟨"A", "T", "RB", "1:05pm", "6000", some 12, some 10, none, none⟩]).map
      LoadedRow.uniqueId).Pairwise (· ≠ ·) :=
  load_players_unique_ids
    [⟨"A", "T", "QB", "1:05pm", "5000", some 20, some 10, none, none⟩,
     ⟨"A", "T", "RB", "1:05pm", "6000", some 12, some 10, none, none⟩]
    (by decide)

theorem sortedIds_perm_eq (l1 l2 : List OptPlayer)
    (h : (l1.map OptPlayer.id).Perm (l2.map OptPlayer.id)) :
    sortedIds l1 = sortedIds l2 := by
  unfold sortedIds
  exact List.eq_of_perm_of_sorted
    ((List.perm_insertionSort _ _).trans (h.trans (List.perm_insertionSort _ _).symm))
    (List.sorted_insertionSort _ _) (List.sorted_insertionSort _ _)

theorem dedupAll_notin :
    ∀ (l : List (List OptPlayer)) (seen : List (List String)) (c : List OptPlayer),
      c ∈ dedupAll seen l → sortedIds c ∉ seen := by
  intro l
  induction l with
  | nil =>
    intro seen c hc
    simp [dedupAll] at hc
  | cons a rest ih =>
    intro seen c hc
    by_cases h : sortedIds a ∈ seen
    · rw [show dedupAll seen (a :: rest) = dedupAll seen rest from by
        simp [dedupAll, h]] at hc
      exact ih seen c hc
    · rw [show dedupAll seen (a :: rest) = a :: dedupAll (sortedIds a :: seen) rest from by
        simp [dedupAll, h]] at hc
      rcases List.mem_cons.mp hc with rfl | hmem
      · exact h
      · intro hin
        exact ih _ c hmem (List.mem_cons_of_mem _ hin)

theorem dedupAll_pairwise :
    ∀ (l : List (List OptPlayer)) (seen : List (List String)),
      (dedupAll seen l).Pairwise fun a b => sortedIds a ≠ sortedIds b := by
  intro l
  induction l with
  | nil =>
    intro seen
    simp [dedupAll]
  | cons a rest ih =>
    intro seen
    by_cases h : sortedIds a ∈ seen
    · rw [show dedupAll seen (a :: rest) = dedupAll seen rest from by simp [dedupAll, h]]
      exact ih seen
    · rw [show dedupAll seen (a :: rest) = a :: dedupAll (sortedIds a :: seen) rest from by
        simp [dedupAll, h]]
      refine List.Pairwise.cons ?_ (ih _)
      intro b hb heq
      exact dedupAll_notin rest (sortedIds a :: seen) b hb
        (by rw [← heq]; exact List.mem_cons_self _ _)

theorem dedupTake_eq :
    ∀ (l : List (List OptPlayer)) (count : Nat) (seen : List (List String)), 1 ≤ count →
      dedupTake count seen l = ((dedupAll seen l).take count).map attachSlots := by
  intro l
  induction l with
  | nil =>
    intro count seen _
    simp [dedupTake, dedupAll]
  | cons c rest ih =>
    intro count seen hcount
    by_cases h : sortedIds c ∈ seen
    · rw [show dedupTake count seen (c :: rest) = dedupTake count seen rest from by
          simp [dedupTake, h],
        show dedupAll seen (c :: rest) = dedupAll seen rest from by simp [dedupAll, h]]
      exact ih count seen hcount
    · match count, hcount with
      | 1, _ =>
        simp [dedupTake, dedupAll, h]
      | k + 2, _ =>
        rw [show dedupTake (k + 2) seen (c :: rest)
              = attachSlots c :: dedupTake (k + 2 - 1) (sortedIds c :: seen) rest from by
            simp [dedupTake, h],
          show dedupAll seen (c :: rest) = c :: dedupAll (sortedIds c :: seen) rest from by
            simp [dedupAll, h]]
        rw [show k + 2 - 1 = k + 1 from rfl, ih (k + 1) _ (by omega), List.take_succ_cons,
          List.map_cons]

/-- C4: `build_lineups` requests `count * 3` candidates from the
optimizer, returns the first `count` of them that are unique up to the
sorted tuple of player ids (so a candidate repeating an earlier
candidate's player-id set in another slot order is dropped), hence at
most `count` lineups, no two of which share a player-id set. -/
theorem build_lineups_spec (optimize : Oracle) (df : List LoadedRow) (count : Nat)
    (locked excluded : List String) (team : String) (ok : Bool) (hcount : 1 ≤ count) :
    build_lineups optimize df count locked excluded team ok
      = ((dedupAll []
          (optimize (buildConfig df locked excluded team ok) (count * 3)).yielded).take
            count).map attachSlots
    ∧ (build_lineups optimize df count locked excluded team ok).length ≤ count
    ∧ ((dedupAll []
          (optimize (buildConfig df locked excluded team ok) (count * 3)).yielded).take
            count).Pairwise
        (fun a b => ¬ (a.map OptPlayer.id).Perm (b.map OptPlayer.id))
    ∧ ∀ c1 c2, (c1.map OptPlayer.id).Perm (c2.map OptPlayer.id) →
        dedupAll [] [c1, c2] = [c1] := by
  refine ⟨dedupTake_eq _ count [] hcount, ?_, ?_, ?_⟩
  · simp only [build_lineups]
    rw [dedupTake_eq _ count [] hcount, List.length_map, List.length_take]
    omega
  · refine ((dedupAll_pairwise _ []).sublist (List.take_sublist _ _)).imp ?_
    intro a b hne hperm
    exact hne (sortedIds_perm_eq a b hperm)
  · intro c1 c2 hperm
    have hkey := sortedIds_perm_eq c1 c2 hperm
    simp [dedupAll, hkey]

theorem build_lineups_spec_witness :
    build_lineups (fun _ _ => ⟨[], none⟩) [] 1 [] [] "" true = []
    ∧ (build_lineups (fun _ _ => ⟨[], none⟩) [] 1 [] [] "" true).length ≤ 1
    ∧ ([] : List (List OptPlayer)).Pairwise
        (fun a b => ¬ (a.map OptPlayer.id).Perm (b.map OptPlayer.id))
    ∧ ∀ c1 c2, (c1.map OptPlayer.id).Perm (c2.map OptPlayer.id) →
        dedupAll [] [c1, c2] = [c1] :=
  build_lineups_spec (fun _ _ => ⟨[], none⟩) [] 1 [] [] "" true (by decide)

/-- C5 counterexample: an optimizer error raised after one candidate was
yielded leaves that candidate in the result, so the result is not
empty. -/
theorem build_lineups_error_partial :
    build_lineups
        (fun _ _ => ⟨[[⟨"P1_0", "P1", "", ["QB"], "NE", 5000, 10⟩]], some "infeasible"⟩)
        [] 1 [] [] "" true
      = [[("QB", ⟨"P1_0", "P1", "", ["QB"], "NE", 5000, 10⟩)]]
    ∧ build_lineups
        (fun _ _ => ⟨[[⟨"P1_0", "P1", "", ["QB"], "NE", 5000, 10⟩]], some "infeasible"⟩)
        [] 1 [] [] "" true
      ≠ [] := by
  constructor
  · rfl
  · intro h
    exact List.cons_ne_nil _ _
      ((rfl : build_lineups
          (fun _ _ => ⟨[[⟨"P1_0", "P1", "", ["QB"], "NE", 5000, 10⟩]], some "infeasible"⟩)
          [] 1 [] [] "" true
        = [[("QB", ⟨"P1_0", "P1", "", ["QB"], "NE", 5000, 10⟩)]]).symm.trans h)

/-- C5 (amended): an optimizer error during generation is caught, never
propagated; the call returns exactly the lineups accumulated from the
candidates yielded before the error — the empty result when the error
precedes the first candidate. -/
theorem build_lineups_error_caught (df : List LoadedRow) (count : Nat)
    (locked excluded : List String) (team : String) (ok : Bool)
    (ys : List (List OptPlayer)) (e : String) :
    build_lineups (fun _ _ => ⟨ys, some e⟩) df count locked excluded team ok
      = build_lineups (fun _ _ => ⟨ys, none⟩) df count locked excluded team ok
    ∧ build_lineups (fun _ _ => ⟨[], some e⟩) df count locked excluded team ok = [] :=
  ⟨rfl, rfl⟩

/-- C8: each locked id with a matching player record forces that record
into the locked list handed to the optimizer; an id with no matching
record is silently ignored — the configuration, hence the whole build, is
unchanged. -/
theorem build_lineups_locked (df : List LoadedRow) (locked excluded : List String)
    (team : String) (ok : Bool) (pid : String) :
    (∀ p, (buildConfig df locked excluded team ok).players.find?
          (fun pl => pl.id == pid) = some p →
        pid ∈ locked → p ∈ (buildConfig df locked excluded team ok).locked)
    ∧ ((buildConfig df locked excluded team ok).players.find?
          (fun pl => pl.id == pid) = none →
        buildConfig df (locked ++ [pid]) excluded team ok
            = buildConfig df locked excluded team ok
        ∧ ∀ optimize count,
            build_lineups optimize df count (locked ++ [pid]) excluded team ok
              = build_lineups optimize df count locked excluded team ok) := by
  constructor
  · intro p hfind hmem
    exact List.mem_filterMap.mpr ⟨pid, hmem, hfind⟩
  · intro hnone
    have hcfg : buildConfig df (locked ++ [pid]) excluded team ok
        = buildConfig df locked excluded team ok := by
      simp only [buildConfig] at hnone ⊢
      simp only [List.filterMap_append, List.filterMap_cons, List.filterMap_nil, hnone,
        List.append_nil]
    refine ⟨hcfg, ?_⟩
    intro optimize count
    simp only [build_lineups, hcfg]

/-- C9: a nonempty `stack_team` makes the build request a constraint of
one QB and two pass-catcher (RB/WR/TE) groups from that team; when
applying the constraint raises, the failure only costs the stack — the
configuration equals the fully unconstrained one and the build
proceeds. -/
theorem build_lineups_stack (df : List LoadedRow) (locked excluded : List String)
    (team : String) (hteam : team ≠ "") :
    (buildConfig df locked excluded team true).stack
      = some { groups := [["QB"], ["RB", "WR", "TE"], ["RB", "WR", "TE"]],
               forPositions := ["QB", "RB", "WR", "TE"], team := team }
    ∧ buildConfig df locked excluded team false = buildConfig df locked excluded "" true
    ∧ ∀ optimize count,
        build_lineups optimize df count locked excluded team false
          = build_lineups optimize df count locked excluded "" true := by
  refine ⟨?_, ?_, ?_⟩
  · simp [buildConfig, hteam, stackFor]
  · simp [buildConfig]
  · intro optimize count
    simp only [build_lineups]
    congr 1
    simp [buildConfig]

theorem build_lineups_stack_witness :
    (buildConfig [] [] [] "NE" true).stack
      = some { groups := [["QB"], ["RB", "WR", "TE"], ["RB", "WR", "TE"]],
               forPositions := ["QB", "RB", "WR", "TE"], team := "NE" }
    ∧ buildConfig [] [] [] "NE" false = buildConfig [] [] [] "" true
    ∧ ∀ optimize count,
        build_lineups optimize [] count [] [] "NE" false
          = build_lineups optimize [] count [] [] "" true :=
  build_lineups_stack [] [] [] "NE" (by decide)

end Nfldfs
